import Mathlib

/-!
Shallow embedding of the `dataq` conjunctive query engine
(`src/core.rs`, `src/database.rs`, `src/query.rs`, `examples/objects.rs`)
together with theorems settling the specification claims.

Conventions of the embedding:
* machine integers (`u32` symbols, `usize` indices, `u16` variable ids)
  are modelled as `Nat`; the program only compares them for equality or
  uses them as indices, so no wrap-around arithmetic is involved;
* Rust panics (failed `assert!`, `unwrap` on a failed `try_into`,
  unsigned subtraction underflow, out-of-range indexing, the two
  explicit `panic!` calls) are modelled as `Except Err` error results;
* the unbounded `while` loop of `QueryState::next` is driven by an
  explicit fuel parameter; running out of fuel yields `none`, which is
  distinct from every behaviour of the Rust code.
-/

deriving instance DecidableEq for Except

namespace Dataq

/-- Symbols are interned ids (`pub type Sym = u32`). -/
abbrev Sym := Nat

/-- The distinct failure modes of the Rust code (each is a `panic!`). -/
inductive Err
  | invalidArity      -- "Unsupported number of elements in fact/pattern"
  | unwrapFailed      -- `f.try_into().unwrap()` on a slice of length ≠ 3
  | assertFailed      -- `assert_eq!` failure
  | malformedQuery    -- "Malformed query (some variables ids are not used)"
  | subOverflow       -- `usize` subtraction underflow in `undo_last`
  | indexOutOfBounds  -- out-of-range `Vec` indexing
deriving DecidableEq

/-- Pattern atoms (`enum PatternAtom { Wildcard, Sym(Sym) }`). -/
inductive PatternAtom
  | wildcard
  | sym (s : Sym)
deriving DecidableEq

/-- `PatternAtom::matches`: a wildcard matches anything, `Sym(s)` matches `s`. -/
def PatternAtom.matches : PatternAtom → Sym → Bool
  | PatternAtom.wildcard, _ => true
  | PatternAtom.sym s, t => s == t

/-- `struct Pattern(Vec<PatternAtom>)`. -/
abbrev Pattern := List PatternAtom

/-- `Pattern::matches`: zip the pattern with the fact and require every
pair to match (Rust's `zip` stops at the shorter sequence, and so does
`List.zip`). -/
def Pattern.matches (p : Pattern) (fact : List Sym) : Bool :=
  (p.zip fact).all (fun x => PatternAtom.matches x.1 x.2)

/-- `Db::add_fact_n` (core.rs): `assert_eq!(f.len(), N)` then
`self.add_fact(f.try_into().unwrap())`.  Because of the alias
`type Tuple<E, const N: usize> = [E; 3]` (core.rs line 3) the target
array type is `[Sym; 3]` for every `N`, so the `try_into` succeeds only
when the fact has length 3. -/
def Db.add_fact_n (N : Nat) (facts : List (List Sym)) (f : List Sym) :
    Except Err (List (List Sym)) :=
  if f.length = N then
    if f.length = 3 then Except.ok (facts ++ [f]) else Except.error Err.unwrapFailed
  else Except.error Err.assertFailed

/-- Scan of `facts[next_index..]` performed by `Db::next_match`: the
second argument is the absolute index of the first element of the
remaining slice. -/
def Db.next_match_from (p : Pattern) : List (List Sym) → Nat → Option (Nat × List Sym)
  | [], _ => none
  | f :: rest, i =>
      if Pattern.matches p f then some (i, f) else Db.next_match_from p rest (i + 1)

/-- `Db::next_match`: linear scan of the bucket starting at `next_index`,
returning the first matching fact with its absolute index.  (The Rust
slice `&self.facts[next_index..]` additionally panics when
`next_index > facts.len()`; theorems about this function therefore carry
the hypothesis `next_index ≤ facts.length`.) -/
def Db.next_match (facts : List (List Sym)) (p : Pattern) (next_index : Nat) :
    Option (Nat × List Sym) :=
  Db.next_match_from p (facts.drop next_index) next_index

/-- `struct Database` (core.rs): one bucket per arity 1..6. -/
structure Database where
  db1 : List (List Sym)
  db2 : List (List Sym)
  db3 : List (List Sym)
  db4 : List (List Sym)
  db5 : List (List Sym)
  db6 : List (List Sym)
deriving DecidableEq

/-- `Database::new()` — all buckets empty. -/
def Database.new : Database := ⟨[], [], [], [], [], []⟩

/-- `Database::add_fact`: dispatch on the fact's length; lengths outside
1..6 hit `panic!("Unsupported number of elements in fact")`. -/
def Database.add_fact (db : Database) (f : List Sym) : Except Err Database :=
  match f.length with
  | 1 => (Db.add_fact_n 1 db.db1 f).map (fun b => { db with db1 := b })
  | 2 => (Db.add_fact_n 2 db.db2 f).map (fun b => { db with db2 := b })
  | 3 => (Db.add_fact_n 3 db.db3 f).map (fun b => { db with db3 := b })
  | 4 => (Db.add_fact_n 4 db.db4 f).map (fun b => { db with db4 := b })
  | 5 => (Db.add_fact_n 5 db.db5 f).map (fun b => { db with db5 := b })
  | 6 => (Db.add_fact_n 6 db.db6 f).map (fun b => { db with db6 := b })
  | _ => Except.error Err.invalidArity

/-- `Database::next_match`: dispatch on the pattern's length; lengths
outside 1..6 hit `panic!("Unsupported number of elements in pattern")`. -/
def Database.next_match (db : Database) (p : Pattern) (next_index : Nat) :
    Except Err (Option (Nat × List Sym)) :=
  match p.length with
  | 1 => Except.ok (Db.next_match db.db1 p next_index)
  | 2 => Except.ok (Db.next_match db.db2 p next_index)
  | 3 => Except.ok (Db.next_match db.db3 p next_index)
  | 4 => Except.ok (Db.next_match db.db4 p next_index)
  | 5 => Except.ok (Db.next_match db.db5 p next_index)
  | 6 => Except.ok (Db.next_match db.db6 p next_index)
  | _ => Except.error Err.invalidArity

/-- Lifted atoms (`enum Atom { Var(Var), Sym(Sym) }`, query.rs / core.rs). -/
inductive Atom
  | var (v : Nat)
  | sym (s : Sym)
deriving DecidableEq

/-- `struct Query { elems: Vec<LiftedFact> }`; a `LiftedFact` is its list
of atoms. -/
structure Query where
  elems : List (List Atom)
deriving DecidableEq

/-- The variable ids occurring in the query, in occurrence order.
`Query::vars` additionally deduplicates (`unique()`), which changes
neither emptiness nor the maximum, the only two things `num_vars`
consumes. -/
def Query.varIds (q : Query) : List Nat :=
  (q.elems.map (fun lf => lf.filterMap (fun a =>
    match a with
    | Atom.var v => some v
    | Atom.sym _ => none))).flatten

/-- `Query::num_vars`: `vars().max()` plus one, or 0 for a variable-free
query. -/
def Query.num_vars (q : Query) : Nat :=
  match q.varIds with
  | [] => 0
  | v :: vs => (v :: vs).foldl Nat.max 0 + 1

/-- `struct QueryState` minus the database borrow (the database is
passed to `next` explicitly).  The trail is kept most-recent-first, so
Rust's `trail.push`/`trail.last`/`trail.pop` become `cons`/`head?`/`tail`. -/
structure QueryState where
  query : Query
  fact_support : List Nat
  assignment : List PatternAtom
  next_unsupported_fact : Nat
  trail : List (Nat × Nat)
deriving DecidableEq

/-- `QueryState::new`. -/
def QueryState.new (q : Query) : QueryState :=
  { query := q
    fact_support := List.replicate q.elems.length 0
    assignment := List.replicate q.num_vars PatternAtom.wildcard
    next_unsupported_fact := 0
    trail := [] }

/-- The trail-popping loop of `undo_last`: pop entries recorded by
conjunct `k`, resetting their assignment slots to `Wildcard`, and stop
at the first entry of another conjunct. -/
def popTrail (k : Nat) : List (Nat × Nat) → List PatternAtom →
    List (Nat × Nat) × List PatternAtom
  | [], a => ([], a)
  | (fid, v) :: rest, a =>
      if fid = k then popTrail k rest (a.set v PatternAtom.wildcard)
      else ((fid, v) :: rest, a)

/-- `QueryState::undo_last`: decrement `next_unsupported_fact` (underflow
when it is 0), advance that conjunct's cursor, and unwind its trail
entries. -/
def QueryState.undo_last (σ : QueryState) : Except Err QueryState :=
  if σ.next_unsupported_fact = 0 then Except.error Err.subOverflow
  else if σ.next_unsupported_fact - 1 < σ.fact_support.length then
    Except.ok
      { σ with
        next_unsupported_fact := σ.next_unsupported_fact - 1
        fact_support := σ.fact_support.set (σ.next_unsupported_fact - 1)
          (σ.fact_support.getD (σ.next_unsupported_fact - 1) 0 + 1)
        trail := (popTrail (σ.next_unsupported_fact - 1) σ.trail σ.assignment).1
        assignment := (popTrail (σ.next_unsupported_fact - 1) σ.trail σ.assignment).2 }
  else Except.error Err.indexOutOfBounds

/-- Pattern construction inside `next`: project each atom of the conjunct
through the current assignment (`Sym(s) ↦ Sym(s)`,
`Var(v) ↦ assignment[v]`).  Every `Var(v)` of the query satisfies
`v < num_vars`, so the lookup is in bounds in reachable states; `getD`
keeps the function total. -/
def buildPattern (assignment : List PatternAtom) (lf : List Atom) : Pattern :=
  lf.map (fun a =>
    match a with
    | Atom.sym s => PatternAtom.sym s
    | Atom.var v => assignment.getD v PatternAtom.wildcard)

/-- The binding loop of `next`: walk the conjunct's atoms with their
positions; a `Var(v)` whose slot is still `Wildcard` is bound to the
fact's symbol at that position and `(k, v)` is pushed on the trail.
`fact[i]` is in bounds whenever the conjunct's length equals the fact's
length (true in every reachable state); `getD` keeps the function
total. -/
def bindFact (k : Nat) (fact : List Sym) :
    List Atom → Nat → List PatternAtom → List (Nat × Nat) →
    List PatternAtom × List (Nat × Nat)
  | [], _, a, t => (a, t)
  | Atom.sym _ :: rest, i, a, t => bindFact k fact rest (i + 1) a t
  | Atom.var v :: rest, i, a, t =>
      if a.getD v PatternAtom.wildcard = PatternAtom.wildcard then
        bindFact k fact rest (i + 1)
          (a.set v (PatternAtom.sym (fact.getD i 0))) ((k, v) :: t)
      else bindFact k fact rest (i + 1) a t

/-- Outcome of the `while` loop of `next`. -/
inductive LoopRes
  | done (σ : QueryState)       -- loop exited: every conjunct supported
  | exhausted (σ : QueryState)  -- `return None` taken inside the loop
  | panic (e : Err)
deriving DecidableEq

/-- The `while self.next_unsupported_fact < self.fact_support.len()` loop
of `QueryState::next`, with fuel (`none` = fuel ran out). -/
def searchLoop (db : Database) : Nat → QueryState → Option LoopRes
  | 0, _ => none
  | fuel + 1, σ =>
    if σ.next_unsupported_fact < σ.fact_support.length then
      match Database.next_match db
          (buildPattern σ.assignment (σ.query.elems.getD σ.next_unsupported_fact []))
          (σ.fact_support.getD σ.next_unsupported_fact 0) with
      | Except.error e => some (LoopRes.panic e)
      | Except.ok (some (support, fact)) =>
          searchLoop db fuel
            { σ with
              assignment := (bindFact σ.next_unsupported_fact fact
                (σ.query.elems.getD σ.next_unsupported_fact []) 0 σ.assignment σ.trail).1
              trail := (bindFact σ.next_unsupported_fact fact
                (σ.query.elems.getD σ.next_unsupported_fact []) 0 σ.assignment σ.trail).2
              fact_support := σ.fact_support.set σ.next_unsupported_fact support
              next_unsupported_fact := σ.next_unsupported_fact + 1 }
      | Except.ok none =>
          if σ.next_unsupported_fact = 0 then
            some (LoopRes.exhausted
              { σ with fact_support := σ.fact_support.set 0 0 })
          else
            match QueryState.undo_last
                { σ with fact_support := σ.fact_support.set σ.next_unsupported_fact 0 } with
            | Except.error e => some (LoopRes.panic e)
            | Except.ok σ' => searchLoop db fuel σ'
    else some (LoopRes.done σ)

/-- The final loop of `next`: copy the assignment, panicking on any
`Wildcard` slot ("Malformed query"). -/
def collectAssignment : List PatternAtom → Except Err (List Sym)
  | [] => Except.ok []
  | PatternAtom.wildcard :: _ => Except.error Err.malformedQuery
  | PatternAtom.sym s :: rest => (collectAssignment rest).map (fun l => s :: l)

/-- The entry of `next`: at a solution (`next_unsupported_fact` equals
the number of conjuncts) undo it; otherwise `assert_eq!(nuf, 0)`. -/
def QueryState.nextEntry (σ : QueryState) : Except Err QueryState :=
  if σ.next_unsupported_fact = σ.fact_support.length then σ.undo_last
  else if σ.next_unsupported_fact = 0 then Except.ok σ
  else Except.error Err.assertFailed

/-- Observable outcome of one call to `QueryState::next`. -/
inductive NextRes
  | emit (a : List Sym) (σ : QueryState)  -- `Some(assignment)`
  | stop (σ : QueryState)                 -- `None`
  | panic (e : Err)
deriving DecidableEq

/-- Rest of `next` after the entry: run the loop, then translate its
outcome (emission copies the assignment via `collectAssignment`). -/
def loopOutcome (db : Database) (fuel : Nat) (σ₀ : QueryState) : Option NextRes :=
  match searchLoop db fuel σ₀ with
  | none => none
  | some (LoopRes.panic e) => some (NextRes.panic e)
  | some (LoopRes.exhausted σ') => some (NextRes.stop σ')
  | some (LoopRes.done σ') =>
    match collectAssignment σ'.assignment with
    | Except.error e => some (NextRes.panic e)
    | Except.ok a => some (NextRes.emit a σ')

/-- `QueryState::next` with fuel for the inner loop. -/
def QueryState.next (db : Database) (fuel : Nat) (σ : QueryState) : Option NextRes :=
  match σ.nextEntry with
  | Except.error e => some (NextRes.panic e)
  | Except.ok σ₀ => loopOutcome db fuel σ₀

/-- The stream of results of up to `n` successive calls to `next`
(`some a` = emitted assignment, `none` = the "no value" signal; the
stream is cut short at a panic or at fuel exhaustion). -/
def emissions (db : Database) (fuel : Nat) : QueryState → Nat → List (Option (List Sym))
  | _, 0 => []
  | σ, n + 1 =>
    match QueryState.next db fuel σ with
    | some (NextRes.emit a σ') => some a :: emissions db fuel σ' n
    | some (NextRes.stop σ') => none :: emissions db fuel σ' n
    | _ => []

/-- Substitution of an emitted assignment into a conjunct (spec §8,
*Soundness*): replace each `Var(v)` by the assignment's value for `v`. -/
def substConjunct (a : List Sym) (lf : List Atom) : List Sym :=
  lf.map (fun atom =>
    match atom with
    | Atom.sym s => s
    | Atom.var v => a.getD v 0)

/-- Strict lexicographic order on equal-length tuples of fact indices
(spec §4.4). -/
def lexLt : List Nat → List Nat → Bool
  | _, [] => false
  | [], _ :: _ => true
  | a :: as, b :: bs => if a < b then true else if a = b then lexLt as bs else false

/-- Interning of a sequence of strings by the frontend
(examples/objects.rs).  The side tables `ids: HashMap<Symbol, u32>` and
`interned: Vec<Symbol>` always satisfy `ids[s] = first index of s in
interned`, so the list alone represents both: `self.interned(s)` returns
the index of `s`, appending `s` first when it is absent.  This function
is the sequential `fact.iter().map(|s| self.interned(s))`. -/
def internAll (tbl : List String) : List String → List Nat × List String
  | [] => ([], tbl)
  | s :: rest =>
      match tbl.findIdx? (fun t => t == s) with
      | some id =>
          ((internAll tbl rest).1.cons id, (internAll tbl rest).2)
      | none =>
          ((internAll (tbl ++ [s]) rest).1.cons tbl.length,
           (internAll (tbl ++ [s]) rest).2)

/-- The interning frontend database (examples/objects.rs):
`ids`/`interned` side tables (represented by the `interned` list, see
`internAll`) plus the core `dataq::Database`. -/
structure FDatabase where
  interned : List String
  db : Database
deriving DecidableEq

/-- `Database::add_fact` of the frontend: intern every string of the
fact — with no validation of any kind — then delegate to the core
`add_fact`. -/
def FDatabase.add_fact (fdb : FDatabase) (fact : List String) : Except Err FDatabase :=
  (Database.add_fact fdb.db (internAll fdb.interned fact).1).map
    (fun db => { interned := (internAll fdb.interned fact).2, db := db })

/-- Frontend atoms: string symbols or `?`-prefixed variable names. -/
inductive SAtom
  | sym (s : String)
  | var (s : String)
deriving DecidableEq

/-- `impl From<&'static str> for Atom` (examples/objects.rs): a string is
classified as a variable iff it starts with `?`
(`s.starts_with("?")` for the one-character pattern `"?"` holds exactly
when the first character of `s` is `?`). -/
def SAtom.ofString (s : String) : SAtom :=
  match s.data with
  | [] => SAtom.sym s
  | c :: _ => if c = '?' then SAtom.var s else SAtom.sym s

/-- The test database of core.rs / database.rs / spec §8: eighteen
arity-3 facts in this insertion order. -/
def testDb : Database :=
  { Database.new with
    db3 :=
      [[1, 2, 1], [1, 2, 2], [1, 2, 3], [1, 2, 4], [1, 2, 5],
       [2, 2, 1], [2, 2, 2], [2, 2, 3], [2, 2, 4], [2, 2, 5], [2, 2, 6], [2, 2, 7],
       [1, 3, 1], [1, 3, 2], [1, 3, 3], [1, 3, 4], [1, 3, 5], [1, 3, 6]] }

/-- The bucket that `Database::add_fact` / `Database::next_match` select
for arity `n` (only meaningful for `1 ≤ n ≤ 6`; both functions panic on
other arities). -/
def Database.bucketOf (db : Database) (n : Nat) : List (List Sym) :=
  match n with
  | 1 => db.db1
  | 2 => db.db2
  | 3 => db.db3
  | 4 => db.db4
  | 5 => db.db5
  | 6 => db.db6
  | _ => []

/-- Invariant piece for the enumeration-order proof: the supports `w`
agree with the previous solution's supports `s` below position `j < nuf`
and are strictly past `s` at `j` — every completion of `w` is
lexicographically above `s`. -/
def StrictAt (s w : List Nat) (nuf : Nat) : Prop :=
  ∃ j, j < nuf ∧ (∀ m, m < j → w.getD m 0 = s.getD m 0) ∧ s.getD j 0 < w.getD j 0

/-- Invariant piece for the enumeration-order proof: the supports `w`
agree with `s` below the active conjunct `nuf` and the active cursor is
strictly past `s`'s support there. -/
def CursorAhead (s w : List Nat) (nuf : Nat) : Prop :=
  (∀ m, m < nuf → w.getD m 0 = s.getD m 0) ∧ s.getD nuf 0 < w.getD nuf 0

/-- Loop invariant of `searchLoop` for the enumeration-order proof,
relative to the supports `s` of the previously emitted solution. -/
def LoopInv (s w : List Nat) (nuf : Nat) : Prop :=
  w.length = s.length ∧ nuf ≤ w.length ∧ (StrictAt s w nuf ∨ CursorAhead s w nuf)

/-- The emitted assignment of a `next` outcome, if any. -/
def emittedOf : Option NextRes → Option (List Sym)
  | some (NextRes.emit a _) => some a
  | _ => none

/-! Concrete inputs used by the claim theorems. -/

/-- Store holding the single arity-3 fact `[1,2,3]`. -/
def exC2db : Database := { Database.new with db3 := [[1, 2, 3]] }

/-- One-conjunct query `{ Var(0), Var(0), Sym(3) }` with a repeated
variable. -/
def exC2q : Query := ⟨[[Atom.var 0, Atom.var 0, Atom.sym 3]]⟩

/-- Store holding the single arity-3 fact `[1,2,1]`. -/
def exC3db : Database := { Database.new with db3 := [[1, 2, 1]] }

/-- One-conjunct query `{ Sym(1), Sym(2), Var(0) }`. -/
def exC3q : Query := ⟨[[Atom.sym 1, Atom.sym 2, Atom.var 0]]⟩

/-- Two-conjunct query `{ Var(2), Var(1), Sym(7) } ∧ { Var(2), Var(0),
Sym(3) }` of spec §8 scenario 6. -/
def exC6q : Query := ⟨[[Atom.var 2, Atom.var 1, Atom.sym 7], [Atom.var 2, Atom.var 0, Atom.sym 3]]⟩

/-- One-conjunct query `{ Sym(1), Sym(2), Var(1) }`: variable id 1
declares the never-referenced id 0. -/
def exC8q : Query := ⟨[[Atom.sym 1, Atom.sym 2, Atom.var 1]]⟩

/-- Store holding the single arity-3 fact `[1,2,1]` (for the C8
witness). -/
def exC8db : Database := { Database.new with db3 := [[1, 2, 1]] }

/-- Store with the two arity-3 facts `[1,2,1]`, `[1,2,2]`. -/
def exC5db : Database := { Database.new with db3 := [[1, 2, 1], [1, 2, 2]] }

/-- One-conjunct query `{ Sym(1), Sym(2), Var(0) }` (over `exC5db`). -/
def exC5q : Query := ⟨[[Atom.sym 1, Atom.sym 2, Atom.var 0]]⟩

/-- Solution state standing on the first answer of `exC5q` over
`exC5db` (reached by the first call to `next`). -/
def exC5σ : QueryState := ⟨exC5q, [0], [PatternAtom.sym 1], 1, [(0, 0)]⟩

/-- Solution state standing on the second answer of `exC5q` over
`exC5db`. -/
def exC5σ' : QueryState := ⟨exC5q, [1], [PatternAtom.sym 2], 1, [(0, 0)]⟩

/-- One-conjunct query `{ Var(0) }` used by the trail witness. -/
def exC7q : Query := ⟨[[Atom.var 0]]⟩

/-- State of `exC7q` standing on a solution whose trail recorded the
binding of variable 0 at conjunct 0. -/
def exC7σ : QueryState := ⟨exC7q, [3], [PatternAtom.sym 9], 1, [(0, 0)]⟩

/-- The state `exC7σ` after `undo_last`. -/
def exC7σ' : QueryState := ⟨exC7q, [4], [PatternAtom.wildcard], 0, []⟩

/-! Helper lemmas about lists, `lexLt` and `next_match`. -/

theorem getD_set_ne {α : Type} (l : List α) (i j : Nat) (x d : α) (h : i ≠ j) :
    (l.set i x).getD j d = l.getD j d := by
  simp [List.getD_eq_getElem?_getD, List.getElem?_set_ne h]

theorem getD_set_self_of_lt {α : Type} (l : List α) (i : Nat) (x d : α) (h : i < l.length) :
    (l.set i x).getD i d = x := by
  simp [List.getD_eq_getElem?_getD, List.getElem?_set_self h]

theorem getD_set_self_default {α : Type} (l : List α) (i : Nat) (x : α) :
    (l.set i x).getD i x = x := by
  rw [List.getD_eq_getElem?_getD, List.getElem?_set]
  by_cases h : i < l.length <;> simp [h]

theorem lexLt_of_strict (s : List Nat) :
    ∀ (w : List Nat) (j : Nat), s.length = w.length → j < s.length →
      (∀ m, m < j → w.getD m 0 = s.getD m 0) → s.getD j 0 < w.getD j 0 →
      lexLt s w = true := by
  induction s with
  | nil =>
    intro w j _ hj _ _
    simp at hj
  | cons a as ih =>
    intro w j hlen hj hpre hstrict
    cases w with
    | nil => simp at hlen
    | cons b bs =>
      cases j with
      | zero =>
        have hab : a < b := hstrict
        simp [lexLt, hab]
      | succ j =>
        have hb : b = a := hpre 0 (Nat.succ_pos j)
        subst hb
        have hred : lexLt (b :: as) (b :: bs) = lexLt as bs := by
          simp [lexLt]
        rw [hred]
        exact ih bs j (Nat.succ.inj hlen) (Nat.lt_of_succ_lt_succ hj)
          (fun m hm => hpre (m + 1) (Nat.succ_lt_succ hm)) hstrict

theorem next_match_stop (facts : List (List Sym)) (p : Pattern) (c : Nat)
    (h : facts.length ≤ c) : Db.next_match facts p c = none := by
  unfold Db.next_match
  rw [List.drop_eq_nil_of_le h]
  rfl

theorem next_match_step (facts : List (List Sym)) (p : Pattern) (c : Nat)
    (h : c < facts.length) :
    Db.next_match facts p c =
      if Pattern.matches p (facts.getD c []) then some (c, facts.getD c [])
      else Db.next_match facts p (c + 1) := by
  have hget : facts.getD c [] = facts[c] := by
    rw [List.getD_eq_getElem?_getD, List.getElem?_eq_getElem h]
    rfl
  unfold Db.next_match
  rw [List.drop_eq_getElem_cons h, hget]
  rfl

theorem next_match_spec_aux (facts : List (List Sym)) (p : Pattern) :
    ∀ (n c : Nat), facts.length ≤ c + n →
      (∀ i f, Db.next_match facts p c = some (i, f) →
          c ≤ i ∧ i < facts.length ∧ facts.getD i [] = f ∧
            Pattern.matches p f = true ∧
            ∀ j, c ≤ j → j < i → Pattern.matches p (facts.getD j []) = false) ∧
      (Db.next_match facts p c = none →
          ∀ j, c ≤ j → j < facts.length → Pattern.matches p (facts.getD j []) = false) := by
  intro n
  induction n with
  | zero =>
    intro c hc
    constructor
    · intro i f hfind
      rw [next_match_stop facts p c (by omega)] at hfind
      cases hfind
    · intro _ j hcj hj
      omega
  | succ n ih =>
    intro c hc
    by_cases h : c < facts.length
    · constructor
      · intro i f hfind
        rw [next_match_step facts p c h] at hfind
        by_cases hm : Pattern.matches p (facts.getD c []) = true
        · rw [if_pos hm] at hfind
          have hif : (c, facts.getD c []) = (i, f) := Option.some.inj hfind
          have hi : c = i := congrArg Prod.fst hif
          have hf : facts.getD c [] = f := congrArg Prod.snd hif
          subst hi
          refine ⟨Nat.le_refl c, h, hf, hf ▸ hm, ?_⟩
          intro j hcj hj
          omega
        · rw [if_neg hm] at hfind
          obtain ⟨hfound, _⟩ := ih (c + 1) (by omega)
          obtain ⟨h1, h2, h3, h4, h5⟩ := hfound i f hfind
          refine ⟨by omega, h2, h3, h4, ?_⟩
          intro j hcj hj
          rcases Nat.eq_or_lt_of_le hcj with rfl | hgt
          · exact Bool.not_eq_true _ ▸ (by simpa using hm)
          · exact h5 j (by omega) hj
      · intro hnone j hcj hj
        rw [next_match_step facts p c h] at hnone
        by_cases hm : Pattern.matches p (facts.getD c []) = true
        · rw [if_pos hm] at hnone
          cases hnone
        · rw [if_neg hm] at hnone
          rcases Nat.eq_or_lt_of_le hcj with rfl | hgt
          · simpa using hm
          · exact (ih (c + 1) (by omega)).2 hnone j (by omega) hj
    · constructor
      · intro i f hfind
        rw [next_match_stop facts p c (by omega)] at hfind
        cases hfind
      · intro _ j hcj hj
        omega

theorem next_match_from_ge (p : Pattern) :
    ∀ (l : List (List Sym)) (i0 i : Nat) (f : List Sym),
      Db.next_match_from p l i0 = some (i, f) → i0 ≤ i := by
  intro l
  induction l with
  | nil =>
    intro i0 i f h
    cases h
  | cons x rest ih =>
    intro i0 i f h
    unfold Db.next_match_from at h
    by_cases hm : Pattern.matches p x = true
    · rw [if_pos hm] at h
      have : (i0, x) = (i, f) := Option.some.inj h
      have hi : i0 = i := congrArg Prod.fst this
      omega
    · rw [if_neg hm] at h
      have := ih (i0 + 1) i f h
      omega

theorem database_next_match_ge (db : Database) (p : Pattern) (c i : Nat) (f : List Sym)
    (h : Database.next_match db p c = Except.ok (some (i, f))) : c ≤ i := by
  unfold Database.next_match at h
  split at h <;>
    first
      | cases h
      | · have hdb := Except.ok.inj h
          exact next_match_from_ge p _ c i f hdb

theorem next_entry_ok (db : Database) (fuel : Nat) (σ τ : QueryState)
    (h : σ.nextEntry = Except.ok τ) :
    QueryState.next db fuel σ = loopOutcome db fuel τ := by
  unfold QueryState.next
  rw [h]

theorem next_entry_error (db : Database) (fuel : Nat) (σ : QueryState) (e : Err)
    (h : σ.nextEntry = Except.error e) :
    QueryState.next db fuel σ = some (NextRes.panic e) := by
  unfold QueryState.next
  rw [h]

theorem loopOutcome_done (db : Database) (fuel : Nat) (σ₀ σ' : QueryState)
    (h : searchLoop db fuel σ₀ = some (LoopRes.done σ')) :
    loopOutcome db fuel σ₀
      = (match collectAssignment σ'.assignment with
         | Except.error e => some (NextRes.panic e)
         | Except.ok a => some (NextRes.emit a σ')) := by
  unfold loopOutcome
  rw [h]

theorem loopOutcome_stuck (db : Database) (fuel : Nat) (σ₀ : QueryState)
    (h : searchLoop db fuel σ₀ = none) :
    loopOutcome db fuel σ₀ = none := by
  unfold loopOutcome
  rw [h]

theorem loopOutcome_panic (db : Database) (fuel : Nat) (σ₀ : QueryState) (e : Err)
    (h : searchLoop db fuel σ₀ = some (LoopRes.panic e)) :
    loopOutcome db fuel σ₀ = some (NextRes.panic e) := by
  unfold loopOutcome
  rw [h]

theorem loopOutcome_exhausted (db : Database) (fuel : Nat) (σ₀ σ' : QueryState)
    (h : searchLoop db fuel σ₀ = some (LoopRes.exhausted σ')) :
    loopOutcome db fuel σ₀ = some (NextRes.stop σ') := by
  unfold loopOutcome
  rw [h]

theorem collect_error_of_wild :
    ∀ (l : List PatternAtom), PatternAtom.wildcard ∈ l →
      collectAssignment l = Except.error Err.malformedQuery := by
  intro l
  induction l with
  | nil =>
    intro h
    cases h
  | cons x rest ih =>
    intro h
    cases x with
    | wildcard => rfl
    | sym s =>
      have hr : PatternAtom.wildcard ∈ rest := by
        cases h with
        | tail _ h => exact h
      simp [collectAssignment, ih hr, Except.map]

theorem undo_last_eq (σ : QueryState) (hnz : σ.next_unsupported_fact ≠ 0)
    (hlen : σ.next_unsupported_fact - 1 < σ.fact_support.length) :
    σ.undo_last = Except.ok
      { σ with
        next_unsupported_fact := σ.next_unsupported_fact - 1
        fact_support := σ.fact_support.set (σ.next_unsupported_fact - 1)
          (σ.fact_support.getD (σ.next_unsupported_fact - 1) 0 + 1)
        trail := (popTrail (σ.next_unsupported_fact - 1) σ.trail σ.assignment).1
        assignment := (popTrail (σ.next_unsupported_fact - 1) σ.trail σ.assignment).2 } := by
  unfold QueryState.undo_last
  rw [if_neg hnz, if_pos hlen]

theorem popTrail_eq (k : Nat) :
    ∀ (t₂ t₁ : List (Nat × Nat)) (a : List PatternAtom),
      (∀ e ∈ t₂, e.1 = k) → (∀ e, t₁.head? = some e → e.1 ≠ k) →
      popTrail k (t₂ ++ t₁) a
        = (t₁, t₂.foldl (fun acc e => acc.set e.2 PatternAtom.wildcard) a) := by
  intro t₂
  induction t₂ with
  | nil =>
    intro t₁ a _ hhead
    cases t₁ with
    | nil => rfl
    | cons e rest =>
      obtain ⟨fid, v⟩ := e
      have hne : fid ≠ k := hhead (fid, v) rfl
      simp [popTrail, hne]
  | cons e t₂ ih =>
    intro t₁ a hall hhead
    obtain ⟨fid, v⟩ := e
    have hfid : fid = k := hall (fid, v) (List.mem_cons_self _ _)
    subst hfid
    simp only [List.cons_append, popTrail, if_pos rfl, List.foldl_cons]
    exact ih t₁ (a.set v PatternAtom.wildcard)
      (fun e he => hall e (List.mem_cons_of_mem _ he)) hhead

theorem wipe_getD_preserve :
    ∀ (t : List (Nat × Nat)) (a : List PatternAtom) (v : Nat),
      a.getD v PatternAtom.wildcard = PatternAtom.wildcard →
      (t.foldl (fun acc e => acc.set e.2 PatternAtom.wildcard) a).getD v
          PatternAtom.wildcard
        = PatternAtom.wildcard := by
  intro t
  induction t with
  | nil => intro a v h; exact h
  | cons e t ih =>
    intro a v h
    rw [List.foldl_cons]
    by_cases hev : e.2 = v
    · subst hev
      exact ih _ e.2 (getD_set_self_default a e.2 PatternAtom.wildcard)
    · exact ih _ v (by rw [getD_set_ne a e.2 v _ _ hev]; exact h)

theorem wipe_getD_mem :
    ∀ (t : List (Nat × Nat)) (a : List PatternAtom) (v : Nat),
      (∃ e ∈ t, e.2 = v) →
      (t.foldl (fun acc e => acc.set e.2 PatternAtom.wildcard) a).getD v
          PatternAtom.wildcard
        = PatternAtom.wildcard := by
  intro t
  induction t with
  | nil =>
    intro a v h
    obtain ⟨e, he, _⟩ := h
    cases he
  | cons e t ih =>
    intro a v h
    rw [List.foldl_cons]
    by_cases hev : e.2 = v
    · subst hev
      exact wipe_getD_preserve t _ e.2 (getD_set_self_default a e.2 PatternAtom.wildcard)
    · obtain ⟨u, hu, huv⟩ := h
      have hut : u ∈ t := by
        cases hu with
        | head => exact absurd huv hev
        | tail _ h => exact h
      exact ih _ v ⟨u, hut, huv⟩

theorem wipe_getD_not_mem :
    ∀ (t : List (Nat × Nat)) (a : List PatternAtom) (v : Nat),
      (∀ e ∈ t, e.2 ≠ v) →
      (t.foldl (fun acc e => acc.set e.2 PatternAtom.wildcard) a).getD v
          PatternAtom.wildcard
        = a.getD v PatternAtom.wildcard := by
  intro t
  induction t with
  | nil => intro a v _; rfl
  | cons e t ih =>
    intro a v h
    rw [List.foldl_cons, ih _ v (fun u hu => h u (List.mem_cons_of_mem _ hu)),
      getD_set_ne a e.2 v _ _ (h e (List.mem_cons_self _ _))]

theorem bindFact_trail (k : Nat) (fact : List Sym) :
    ∀ (atoms : List Atom) (i : Nat) (a : List PatternAtom) (t : List (Nat × Nat)),
      (∀ v, Atom.var v ∈ atoms → v < a.length) →
      ∃ new : List (Nat × Nat),
        (bindFact k fact atoms i a t).2 = new ++ t ∧
        (∀ e ∈ new, e.1 = k ∧
          a.getD e.2 PatternAtom.wildcard = PatternAtom.wildcard) ∧
        (new.map Prod.snd).Nodup := by
  intro atoms
  induction atoms with
  | nil =>
    intro i a t _
    refine ⟨[], rfl, ?_, List.nodup_nil⟩
    intro e he
    cases he
  | cons atom rest ih =>
    intro i a t hb
    cases atom with
    | sym s =>
      have h := ih (i + 1) a t (fun v hv => hb v (List.mem_cons_of_mem _ hv))
      have heq : bindFact k fact (Atom.sym s :: rest) i a t
          = bindFact k fact rest (i + 1) a t := by
        rw [bindFact]
      rw [heq]
      exact h
    | var v =>
      by_cases hw : a.getD v PatternAtom.wildcard = PatternAtom.wildcard
      · have hvlen : v < a.length := hb v (List.mem_cons_self _ _)
        obtain ⟨new', h1, h2, h3⟩ := ih (i + 1)
          (a.set v (PatternAtom.sym (fact.getD i 0))) ((k, v) :: t)
          (fun u hu => by
            rw [List.length_set]
            exact hb u (List.mem_cons_of_mem _ hu))
        refine ⟨new' ++ [(k, v)], ?_, ?_, ?_⟩
        · show (bindFact k fact (Atom.var v :: rest) i a t).2 = (new' ++ [(k, v)]) ++ t
          rw [bindFact, if_pos hw]
          rw [h1, List.append_assoc, List.singleton_append]
        · intro e he
          rcases List.mem_append.mp he with he' | he'
          · obtain ⟨hk, hwild⟩ := h2 e he'
            refine ⟨hk, ?_⟩
            by_cases hev : e.2 = v
            · rw [hev, getD_set_self_of_lt a v _ _ hvlen] at hwild
              cases hwild
            · rw [getD_set_ne a v e.2 _ _ (fun hh => hev hh.symm)] at hwild
              exact hwild
          · rw [List.mem_singleton] at he'
            subst he'
            exact ⟨rfl, hw⟩
        · rw [List.map_append, List.nodup_append]
          refine ⟨h3, by simp, ?_⟩
          intro x hx hx'
          rw [List.map_singleton, List.mem_singleton] at hx'
          rw [hx'] at hx
          obtain ⟨e, he, hev⟩ := List.mem_map.mp hx
          obtain ⟨_, hwild⟩ := h2 e he
          rw [hev, getD_set_self_of_lt a v _ _ hvlen] at hwild
          cases hwild
      · have h := ih (i + 1) a t (fun u hu => hb u (List.mem_cons_of_mem _ hu))
        have heq : bindFact k fact (Atom.var v :: rest) i a t
            = bindFact k fact rest (i + 1) a t := by
          rw [bindFact, if_neg hw]
        rw [heq]
        exact h

theorem database_next_match_bucket (db : Database) (p : Pattern) (c : Nat)
    (h1 : 1 ≤ p.length) (h6 : p.length ≤ 6) :
    Database.next_match db p c
      = Except.ok (Db.next_match (db.bucketOf p.length) p c) := by
  have hcase : p.length = 1 ∨ p.length = 2 ∨ p.length = 3 ∨ p.length = 4 ∨
      p.length = 5 ∨ p.length = 6 := by omega
  rcases hcase with h | h | h | h | h | h <;>
    simp [Database.next_match, Database.bucketOf, h]

theorem searchLoop_done (db : Database) (fuel : Nat) (τ : QueryState)
    (hge : ¬ τ.next_unsupported_fact < τ.fact_support.length) :
    searchLoop db (fuel + 1) τ = some (LoopRes.done τ) := by
  rw [searchLoop, if_neg hge]

theorem searchLoop_error (db : Database) (fuel : Nat) (τ : QueryState) (e : Err)
    (hlt : τ.next_unsupported_fact < τ.fact_support.length)
    (hdm : Database.next_match db
        (buildPattern τ.assignment (τ.query.elems.getD τ.next_unsupported_fact []))
        (τ.fact_support.getD τ.next_unsupported_fact 0) = Except.error e) :
    searchLoop db (fuel + 1) τ = some (LoopRes.panic e) := by
  rw [searchLoop, if_pos hlt, hdm]

theorem searchLoop_found (db : Database) (fuel : Nat) (τ : QueryState)
    (support : Nat) (fact : List Sym)
    (hlt : τ.next_unsupported_fact < τ.fact_support.length)
    (hdm : Database.next_match db
        (buildPattern τ.assignment (τ.query.elems.getD τ.next_unsupported_fact []))
        (τ.fact_support.getD τ.next_unsupported_fact 0)
      = Except.ok (some (support, fact))) :
    searchLoop db (fuel + 1) τ = searchLoop db fuel
      { τ with
        assignment := (bindFact τ.next_unsupported_fact fact
          (τ.query.elems.getD τ.next_unsupported_fact []) 0 τ.assignment τ.trail).1
        trail := (bindFact τ.next_unsupported_fact fact
          (τ.query.elems.getD τ.next_unsupported_fact []) 0 τ.assignment τ.trail).2
        fact_support := τ.fact_support.set τ.next_unsupported_fact support
        next_unsupported_fact := τ.next_unsupported_fact + 1 } := by
  rw [searchLoop, if_pos hlt, hdm]

theorem searchLoop_exh (db : Database) (fuel : Nat) (τ : QueryState)
    (hlt : τ.next_unsupported_fact < τ.fact_support.length)
    (hz : τ.next_unsupported_fact = 0)
    (hdm : Database.next_match db
        (buildPattern τ.assignment (τ.query.elems.getD τ.next_unsupported_fact []))
        (τ.fact_support.getD τ.next_unsupported_fact 0) = Except.ok none) :
    searchLoop db (fuel + 1) τ
      = some (LoopRes.exhausted { τ with fact_support := τ.fact_support.set 0 0 }) := by
  rw [searchLoop, if_pos hlt, hdm, if_pos hz]

theorem searchLoop_backtrack (db : Database) (fuel : Nat) (τ : QueryState)
    (hlt : τ.next_unsupported_fact < τ.fact_support.length)
    (hnz : ¬ τ.next_unsupported_fact = 0)
    (hdm : Database.next_match db
        (buildPattern τ.assignment (τ.query.elems.getD τ.next_unsupported_fact []))
        (τ.fact_support.getD τ.next_unsupported_fact 0) = Except.ok none) :
    searchLoop db (fuel + 1) τ = searchLoop db fuel
      { τ with
        next_unsupported_fact := τ.next_unsupported_fact - 1
        fact_support := (τ.fact_support.set τ.next_unsupported_fact 0).set
          (τ.next_unsupported_fact - 1)
          ((τ.fact_support.set τ.next_unsupported_fact 0).getD
            (τ.next_unsupported_fact - 1) 0 + 1)
        trail := (popTrail (τ.next_unsupported_fact - 1) τ.trail τ.assignment).1
        assignment := (popTrail (τ.next_unsupported_fact - 1) τ.trail τ.assignment).2 } := by
  rw [searchLoop, if_pos hlt, hdm, if_neg hnz]
  rw [undo_last_eq { τ with fact_support := τ.fact_support.set τ.next_unsupported_fact 0 }
    hnz
    (by
      show τ.next_unsupported_fact - 1
        < (τ.fact_support.set τ.next_unsupported_fact 0).length
      rw [List.length_set]
      omega)]

theorem loopInv_success (s w : List Nat) (k sup : Nat)
    (h : LoopInv s w k) (hk : k < w.length) (hsup : w.getD k 0 ≤ sup) :
    LoopInv s (w.set k sup) (k + 1) := by
  obtain ⟨hlen, _, hdisj⟩ := h
  refine ⟨by rw [List.length_set]; exact hlen, by rw [List.length_set]; omega, Or.inl ?_⟩
  rcases hdisj with ⟨j, hj, hpre, hstrict⟩ | ⟨hpre, hcur⟩
  · refine ⟨j, by omega, ?_, ?_⟩
    · intro m hm
      rw [getD_set_ne w k m sup 0 (by omega)]
      exact hpre m hm
    · rw [getD_set_ne w k j sup 0 (by omega)]
      exact hstrict
  · refine ⟨k, by omega, ?_, ?_⟩
    · intro m hm
      rw [getD_set_ne w k m sup 0 (by omega)]
      exact hpre m hm
    · rw [getD_set_self_of_lt w k sup 0 hk]
      omega

theorem loopInv_fail (s w : List Nat) (k : Nat)
    (h : LoopInv s w k) (hk : k < w.length) (hk0 : ¬ k = 0) :
    LoopInv s ((w.set k 0).set (k - 1) ((w.set k 0).getD (k - 1) 0 + 1)) (k - 1) := by
  obtain ⟨hlen, _, hdisj⟩ := h
  have hlen2 : ((w.set k 0).set (k - 1) ((w.set k 0).getD (k - 1) 0 + 1)).length
      = w.length := by
    rw [List.length_set, List.length_set]
  have hgetD : ∀ m, m ≠ k → m ≠ k - 1 →
      ((w.set k 0).set (k - 1) ((w.set k 0).getD (k - 1) 0 + 1)).getD m 0
        = w.getD m 0 := by
    intro m h1 h2
    rw [getD_set_ne (w.set k 0) (k - 1) m _ 0 (fun hh => h2 hh.symm),
      getD_set_ne w k m 0 0 (fun hh => h1 hh.symm)]
  have hcurval : ((w.set k 0).set (k - 1) ((w.set k 0).getD (k - 1) 0 + 1)).getD (k - 1) 0
      = w.getD (k - 1) 0 + 1 := by
    rw [getD_set_self_of_lt (w.set k 0) (k - 1) _ 0 (by rw [List.length_set]; omega),
      getD_set_ne w k (k - 1) 0 0 (by omega)]
  refine ⟨by rw [hlen2]; exact hlen, by rw [hlen2]; omega, ?_⟩
  rcases hdisj with ⟨j, hj, hpre, hstrict⟩ | ⟨hpre, hcur⟩
  · by_cases hjk : j = k - 1
    · subst hjk
      right
      refine ⟨?_, ?_⟩
      · intro m hm
        rw [hgetD m (by omega) (by omega)]
        exact hpre m hm
      · rw [hcurval]
        omega
    · left
      refine ⟨j, by omega, ?_, ?_⟩
      · intro m hm
        rw [hgetD m (by omega) (by omega)]
        exact hpre m hm
      · rw [hgetD j (by omega) (by omega)]
        exact hstrict
  · right
    refine ⟨?_, ?_⟩
    · intro m hm
      rw [hgetD m (by omega) (by omega)]
      exact hpre m (by omega)
    · rw [hcurval]
      have hk1 := hpre (k - 1) (by omega)
      omega

theorem loopInv_done (s w : List Nat) (nuf : Nat)
    (h : LoopInv s w nuf) (hge : ¬ nuf < w.length) :
    lexLt s w = true := by
  obtain ⟨hlen, hnuf, hdisj⟩ := h
  rcases hdisj with ⟨j, hj, hpre, hstrict⟩ | ⟨_, hcur⟩
  · exact lexLt_of_strict s w j hlen.symm (by omega) hpre hstrict
  · rw [List.getD_eq_default w 0 (by omega)] at hcur
    exact absurd hcur (Nat.not_lt_zero _)

theorem searchLoop_lex (db : Database) (s : List Nat) :
    ∀ (fuel : Nat) (τ σ' : QueryState),
      LoopInv s τ.fact_support τ.next_unsupported_fact →
      searchLoop db fuel τ = some (LoopRes.done σ') →
      lexLt s σ'.fact_support = true := by
  intro fuel
  induction fuel with
  | zero =>
    intro τ σ' _ hrun
    simp [searchLoop] at hrun
  | succ fuel ih =>
    intro τ σ' hinv hrun
    by_cases hlt : τ.next_unsupported_fact < τ.fact_support.length
    · rcases hdm : Database.next_match db
          (buildPattern τ.assignment (τ.query.elems.getD τ.next_unsupported_fact []))
          (τ.fact_support.getD τ.next_unsupported_fact 0) with e | res
      · rw [searchLoop_error db fuel τ e hlt hdm] at hrun
        simp at hrun
      · cases res with
        | none =>
          by_cases hz : τ.next_unsupported_fact = 0
          · rw [searchLoop_exh db fuel τ hlt hz hdm] at hrun
            simp at hrun
          · rw [searchLoop_backtrack db fuel τ hlt hz hdm] at hrun
            apply ih _ σ' _ hrun
            show LoopInv s ((τ.fact_support.set τ.next_unsupported_fact 0).set
                (τ.next_unsupported_fact - 1)
                ((τ.fact_support.set τ.next_unsupported_fact 0).getD
                  (τ.next_unsupported_fact - 1) 0 + 1))
              (τ.next_unsupported_fact - 1)
            exact loopInv_fail s τ.fact_support τ.next_unsupported_fact hinv hlt hz
        | some pair =>
          obtain ⟨support, fact⟩ := pair
          rw [searchLoop_found db fuel τ support fact hlt hdm] at hrun
          apply ih _ σ' _ hrun
          show LoopInv s (τ.fact_support.set τ.next_unsupported_fact support)
            (τ.next_unsupported_fact + 1)
          exact loopInv_success s τ.fact_support τ.next_unsupported_fact support hinv hlt
            (database_next_match_ge db _ _ _ _ hdm)
    · rw [searchLoop_done db fuel τ hlt] at hrun
      obtain rfl : τ = σ' := LoopRes.done.inj (Option.some.inj hrun)
      exact loopInv_done s τ.fact_support τ.next_unsupported_fact hinv hlt

/-! Claim theorems. -/

/-- C1: for facts of length 1..6 `add_fact` is claimed to append to the
bucket of that length and to fail (`InvalidArity`) exactly outside 1..6.
In the code, `type Tuple<E, const N: usize> = [E; 3]` ignores `N`, so
the `try_into().unwrap()` in `add_fact_n` panics for every length other
than 3: `add_fact([5,7])` and `add_fact([4])` panic on the slice-to-array
conversion instead of succeeding; only length 3 appends, and lengths
outside 1..6 fail with the arity panic. -/
theorem add_fact_arity_behavior :
    Database.add_fact Database.new [5, 7] = Except.error Err.unwrapFailed ∧
    Database.add_fact Database.new [4] = Except.error Err.unwrapFailed ∧
    Database.add_fact Database.new [1, 2, 3]
      = Except.ok { Database.new with db3 := [[1, 2, 3]] } ∧
    Database.add_fact Database.new [1, 1, 1, 1, 1, 1, 1] = Except.error Err.invalidArity := by
  decide

/-- C2: the claim states that a candidate fact whose symbols disagree at
two positions holding the same variable is rejected.  The code performs
no such check: over the store `{[1,2,3]}` the query
`{ Var(0), Var(0), Sym(3) }` emits the assignment `[1]`, although
substituting it into the conjunct yields `(1,1,3)`, which is not in the
store — the soundness invariant fails on this input. -/
theorem repeated_var_unsound_emission :
    emittedOf (QueryState.next exC2db 20 (QueryState.new exC2q)) = some [1] ∧
    substConjunct [1] [Atom.var 0, Atom.var 0, Atom.sym 3] = [1, 1, 3] ∧
    [1, 1, 3] ∉ exC2db.db3 := by
  decide

/-- C3: the claim states that after `next()` returns the no-value signal
every later call also returns it.  In the code, returning `None` leaves
the state identical to the freshly constructed state, so the following
call re-emits the first assignment: over the store `{[1,2,1]}` the query
`{ Sym(1), Sym(2), Var(0) }` produces `Some [1]`, `None`, `Some [1]`,
`None`, … -/
theorem next_reemits_after_none :
    emissions exC3db 20 (QueryState.new exC3q) 4 = [some [1], none, some [1], none] := by
  decide

/-- C4: for a pattern of a supported arity (1..6) and a resume cursor
`c` within the bucket (the Rust slice `&facts[c..]` panics beyond it),
`next_match` returns a pair `(i, fact)` in which `i` is the smallest
index `i ≥ c` of the bucket keyed by the pattern's length whose fact
matches the pattern — and the no-more signal exactly when no index
`≥ c` matches, in particular on an empty bucket. -/
theorem next_match_finds_least_index (db : Database) (p : Pattern) (c : Nat)
    (h1 : 1 ≤ p.length) (h6 : p.length ≤ 6)
    (hc : c ≤ (db.bucketOf p.length).length) :
    (∀ i f, Database.next_match db p c = Except.ok (some (i, f)) →
        c ≤ i ∧ i < (db.bucketOf p.length).length ∧
        (db.bucketOf p.length).getD i [] = f ∧ Pattern.matches p f = true ∧
        ∀ j, c ≤ j → j < i →
          Pattern.matches p ((db.bucketOf p.length).getD j []) = false) ∧
    (Database.next_match db p c = Except.ok none →
        ∀ j, c ≤ j → j < (db.bucketOf p.length).length →
          Pattern.matches p ((db.bucketOf p.length).getD j []) = false) := by
  have hb := database_next_match_bucket db p c h1 h6
  have haux := next_match_spec_aux (db.bucketOf p.length) p
    (db.bucketOf p.length).length c (by omega)
  constructor
  · intro i f hfind
    rw [hb] at hfind
    exact haux.1 i f (Except.ok.inj hfind)
  · intro hnone j
    rw [hb] at hnone
    exact haux.2 (Except.ok.inj hnone) j

/-- Witness for C4 at a concrete input: over the §8 store, the pattern
`[Sym 1, Sym 2, Sym 3]` resumed at cursor 0 finds index 2 holding
`[1,2,3]`. -/
theorem next_match_finds_least_index_inst :
    0 ≤ 2 ∧ 2 < (testDb.bucketOf 3).length ∧
    (testDb.bucketOf 3).getD 2 [] = [1, 2, 3] ∧
    Pattern.matches [PatternAtom.sym 1, PatternAtom.sym 2, PatternAtom.sym 3] [1, 2, 3] = true :=
  have h := (next_match_finds_least_index testDb
    [PatternAtom.sym 1, PatternAtom.sym 2, PatternAtom.sym 3] 0 (by decide) (by decide)
    (by decide)).1 2 [1, 2, 3] (by decide)
  ⟨h.1, h.2.1, h.2.2.1, h.2.2.2.1⟩

/-- C5: the emitted assignments follow the lexicographic order of the
tuples `(cursor[0], …, cursor[last])` of supporting fact indices:
whenever `next` is called on a solution state (every conjunct supported,
conjuncts processed left to right and facts scanned in insertion order
within their bucket) and emits another assignment, the new support tuple
is lexicographically strictly greater than the previous one — so the
whole emission sequence is strictly increasing in that order. -/
theorem emission_order_lex_increasing (db : Database) (fuel : Nat)
    (σ σ' : QueryState) (a : List Sym)
    (hsol : σ.next_unsupported_fact = σ.fact_support.length)
    (hnext : QueryState.next db fuel σ = some (NextRes.emit a σ')) :
    lexLt σ.fact_support σ'.fact_support = true := by
  by_cases hz : σ.next_unsupported_fact = 0
  · have hentry : σ.nextEntry = Except.error Err.subOverflow := by
      unfold QueryState.nextEntry QueryState.undo_last
      rw [if_pos hsol, if_pos hz]
    rw [next_entry_error db fuel σ _ hentry] at hnext
    simp at hnext
  · have hlen : σ.next_unsupported_fact - 1 < σ.fact_support.length := by omega
    have hOk : σ.nextEntry = Except.ok
        { σ with
          next_unsupported_fact := σ.next_unsupported_fact - 1
          fact_support := σ.fact_support.set (σ.next_unsupported_fact - 1)
            (σ.fact_support.getD (σ.next_unsupported_fact - 1) 0 + 1)
          trail := (popTrail (σ.next_unsupported_fact - 1) σ.trail σ.assignment).1
          assignment := (popTrail (σ.next_unsupported_fact - 1) σ.trail σ.assignment).2 } := by
      unfold QueryState.nextEntry
      rw [if_pos hsol, undo_last_eq σ hz hlen]
    rw [next_entry_ok db fuel σ _ hOk] at hnext
    have hinv : LoopInv σ.fact_support
        (σ.fact_support.set (σ.next_unsupported_fact - 1)
          (σ.fact_support.getD (σ.next_unsupported_fact - 1) 0 + 1))
        (σ.next_unsupported_fact - 1) := by
      refine ⟨List.length_set _ _ _, by rw [List.length_set]; omega, Or.inr ⟨?_, ?_⟩⟩
      · intro m hm
        rw [getD_set_ne σ.fact_support (σ.next_unsupported_fact - 1) m _ 0 (by omega)]
      · rw [getD_set_self_of_lt σ.fact_support (σ.next_unsupported_fact - 1) _ 0 hlen]
        omega
    rcases hrun : searchLoop db fuel
        { σ with
          next_unsupported_fact := σ.next_unsupported_fact - 1
          fact_support := σ.fact_support.set (σ.next_unsupported_fact - 1)
            (σ.fact_support.getD (σ.next_unsupported_fact - 1) 0 + 1)
          trail := (popTrail (σ.next_unsupported_fact - 1) σ.trail σ.assignment).1
          assignment := (popTrail (σ.next_unsupported_fact - 1) σ.trail σ.assignment).2 }
      with _ | lr
    · rw [loopOutcome_stuck db fuel _ hrun] at hnext
      cases hnext
    · cases lr with
      | panic e =>
        rw [loopOutcome_panic db fuel _ e hrun] at hnext
        simp at hnext
      | exhausted σ₁ =>
        rw [loopOutcome_exhausted db fuel _ σ₁ hrun] at hnext
        simp at hnext
      | done σ₁ =>
        rw [loopOutcome_done db fuel _ σ₁ hrun] at hnext
        rcases hca : collectAssignment σ₁.assignment with e | a'
        · rw [hca] at hnext
          simp at hnext
        · rw [hca] at hnext
          have hemit : NextRes.emit a' σ₁ = NextRes.emit a σ' := Option.some.inj hnext
          have hσ : σ₁ = σ' := by
            cases hemit
            rfl
          rw [hσ] at hrun
          exact searchLoop_lex db σ.fact_support fuel _ σ' hinv hrun

/-- Witness for C5 at a concrete input: over the store
`{[1,2,1],[1,2,2]}` the solution state of the query
`{ Sym(1), Sym(2), Var(0) }` standing on the first answer (support
tuple `[0]`) yields the second answer with support tuple `[1]`, and
`[0] < [1]` lexicographically. -/
theorem emission_order_lex_increasing_inst :
    lexLt exC5σ.fact_support exC5σ'.fact_support = true :=
  emission_order_lex_increasing exC5db 20 exC5σ exC5σ' [2] rfl (by decide)

/-- C6: over the eighteen arity-3 facts of spec §8 in insertion order,
the query `{ Var(2), Var(1), Sym(7) } ∧ { Var(2), Var(0), Sym(3) }`
yields exactly the assignment `[2,2,2]` and then the no-value signal,
although variable ids first appear in non-dense positions. -/
theorem scenario_nondense_var_ids :
    emissions testDb 20 (QueryState.new exC6q) 2 = [some [2, 2, 2], none] := by
  decide

/-- C9 counterexample: the frontend `add_fact` is claimed to reject
strings whose first character is `?`; in the code it performs no
validation at all — adding `["?x", "a", "b"]` to an empty frontend
database succeeds, interning `"?x"` as symbol id 0. -/
theorem frontend_add_fact_accepts_question_mark :
    FDatabase.add_fact ⟨[], Database.new⟩ ["?x", "a", "b"]
      = Except.ok ⟨["?x", "a", "b"], { Database.new with db3 := [[0, 1, 2]] }⟩ := by
  decide

/-- C9 amended: the frontend `add_fact` interns every string of the fact
unconditionally, a leading `?` included, and delegates to the core
store; the `?`-classification exists only when an `Atom` is built from a
user string in a query (`Var` iff the first character is `?`). -/
theorem frontend_add_fact_no_validation :
    FDatabase.add_fact ⟨[], Database.new⟩ ["?x", "a", "b"]
      = Except.ok ⟨["?x", "a", "b"], { Database.new with db3 := [[0, 1, 2]] }⟩ ∧
    FDatabase.add_fact ⟨["on"], Database.new⟩ ["on", "on", "b"]
      = Except.ok ⟨["on", "b"], { Database.new with db3 := [[0, 0, 1]] }⟩ ∧
    SAtom.ofString "?x" = SAtom.var "?x" ∧
    SAtom.ofString "x" = SAtom.sym "x" := by
  refine ⟨by decide, by decide, rfl, rfl⟩

/-- C7: after backtracking conjunct k (`undo_last`), every variable whose
first binding was recorded at conjunct k — its block of trail entries —
has its assignment slot restored to `Wildcard`, every variable bound by
an earlier conjunct keeps its slot unchanged, and exactly conjunct k's
entries are popped; moreover the binding loop pushes a trail entry only
for a variable whose slot was still `Wildcard` when the conjunct was
entered, and never twice for the same variable (a second reference to an
already-bound variable records nothing). -/
theorem trail_undo_and_push_discipline :
    (∀ (σ σ' : QueryState) (k : Nat) (t₂ t₁ : List (Nat × Nat)),
        σ.next_unsupported_fact = k + 1 →
        k < σ.fact_support.length →
        σ.trail = t₂ ++ t₁ →
        (∀ e ∈ t₂, e.1 = k) →
        (∀ e, t₁.head? = some e → e.1 ≠ k) →
        σ.undo_last = Except.ok σ' →
        σ'.trail = t₁ ∧
        (∀ v, (∃ e ∈ t₂, e.2 = v) →
          σ'.assignment.getD v PatternAtom.wildcard = PatternAtom.wildcard) ∧
        (∀ v, (∀ e ∈ t₂, e.2 ≠ v) →
          σ'.assignment.getD v PatternAtom.wildcard
            = σ.assignment.getD v PatternAtom.wildcard)) ∧
    (∀ (k : Nat) (fact : List Sym) (atoms : List Atom) (a : List PatternAtom)
        (t : List (Nat × Nat)),
        (∀ v, Atom.var v ∈ atoms → v < a.length) →
        ∃ new : List (Nat × Nat),
          (bindFact k fact atoms 0 a t).2 = new ++ t ∧
          (∀ e ∈ new, e.1 = k ∧
            a.getD e.2 PatternAtom.wildcard = PatternAtom.wildcard) ∧
          (new.map Prod.snd).Nodup) := by
  constructor
  · intro σ σ' k t₂ t₁ hnuf hk htrail hall hhead hundo
    have hnz : σ.next_unsupported_fact ≠ 0 := by omega
    have hlen : σ.next_unsupported_fact - 1 < σ.fact_support.length := by omega
    rw [undo_last_eq σ hnz hlen] at hundo
    have hrec := Except.ok.inj hundo
    subst hrec
    have hkk : σ.next_unsupported_fact - 1 = k := by omega
    refine ⟨?_, ?_, ?_⟩
    · show (popTrail (σ.next_unsupported_fact - 1) σ.trail σ.assignment).1 = t₁
      rw [hkk, htrail, popTrail_eq k t₂ t₁ σ.assignment hall hhead]
    · intro v hv
      show (popTrail (σ.next_unsupported_fact - 1) σ.trail σ.assignment).2.getD v
          PatternAtom.wildcard = PatternAtom.wildcard
      rw [hkk, htrail, popTrail_eq k t₂ t₁ σ.assignment hall hhead]
      exact wipe_getD_mem t₂ σ.assignment v hv
    · intro v hv
      show (popTrail (σ.next_unsupported_fact - 1) σ.trail σ.assignment).2.getD v
          PatternAtom.wildcard = σ.assignment.getD v PatternAtom.wildcard
      rw [hkk, htrail, popTrail_eq k t₂ t₁ σ.assignment hall hhead]
      exact wipe_getD_not_mem t₂ σ.assignment v hv
  · exact fun k fact atoms a t hb => bindFact_trail k fact atoms 0 a t hb

/-- Witness for C7 at concrete inputs: undoing the solution state
`exC7σ` (one conjunct, trail `[(0,0)]`) pops the conjunct-0 entry,
resets variable 0's slot to `Wildcard`, and the binding loop over
`[Var 0]` pushes exactly the single entry `(0,0)`. -/
theorem trail_undo_and_push_discipline_inst :
    exC7σ'.trail = [] ∧
    exC7σ'.assignment.getD 0 PatternAtom.wildcard = PatternAtom.wildcard ∧
    (bindFact 0 [7] [Atom.var 0] 0 [PatternAtom.wildcard] []).2 = [(0, 0)] :=
  have h1 := trail_undo_and_push_discipline.1 exC7σ exC7σ' 0 [(0, 0)] []
    rfl (by decide) rfl
    (by intro e he; rw [List.mem_singleton] at he; subst he; rfl)
    (by intro e he; cases he)
    (by decide)
  ⟨h1.1, h1.2.1 0 ⟨(0, 0), List.mem_singleton.mpr rfl, rfl⟩, by decide⟩

/-- C8: if the search loop completes with every conjunct supported while
some assignment slot is still `Wildcard` — a variable id not exceeding
the maximum declared id was never referenced by any conjunct — then
`next` fails with the malformed-query panic instead of returning an
assignment. -/
theorem malformed_query_panics (db : Database) (fuel : Nat) (σ τ σ' : QueryState)
    (hentry : σ.nextEntry = Except.ok τ)
    (hloop : searchLoop db fuel τ = some (LoopRes.done σ'))
    (hwild : PatternAtom.wildcard ∈ σ'.assignment) :
    QueryState.next db fuel σ = some (NextRes.panic Err.malformedQuery) := by
  rw [next_entry_ok db fuel σ τ hentry, loopOutcome_done db fuel τ σ' hloop,
    collect_error_of_wild σ'.assignment hwild]

/-- Witness for C8 at a concrete input: over the store `{[1,2,1]}` the
query `{ Sym(1), Sym(2), Var(1) }` declares variable 0 without
referencing it; the first call to `next` panics with the
malformed-query error. -/
theorem malformed_query_panics_inst :
    QueryState.next exC8db 20 (QueryState.new exC8q)
      = some (NextRes.panic Err.malformedQuery) :=
  malformed_query_panics exC8db 20 (QueryState.new exC8q) (QueryState.new exC8q)
    ⟨exC8q, [0], [PatternAtom.wildcard, PatternAtom.sym 1], 1, [(0, 1)]⟩
    (by decide) (by decide) (by decide)

/-- C10: for a query with an empty list of conjuncts the very first call
to `next()` panics: `next_unsupported_fact` (0) equals the number of
conjuncts (0), so `undo_last` is entered and decrements the unsigned
counter 0, underflowing — regardless of the store and of the fuel. -/
theorem empty_query_next_underflows (db : Database) (fuel : Nat) :
    QueryState.next db fuel (QueryState.new ⟨[]⟩)
      = some (NextRes.panic Err.subOverflow) := rfl

end Dataq
